import Mathlib

/-!
Verification development for the DevManager repository: a shallow embedding
of the port registry (`port_manager.py`), the process supervisor
(`process_manager.py`) and the port-source detector (`port_detector.py`),
together with theorems settling the frozen specification claims.

Conventions of the embedding:
* Python dicts keyed by port / process key become association lists with
  insert-or-replace update (`dictInsert`), preserving insertion order the way
  CPython dicts do.
* The live OS probe `is_port_available` becomes an oracle `avail : Nat → Bool`
  passed explicitly; OS process spawning becomes an explicit
  `spawn : Except String Nat` outcome (error text standing for the caught
  exception), and wall-clock timestamps become explicit `now : String`
  arguments.
* Python `float` confidences (all exact multiples of 0.05 in the source) are
  scaled by 100 to `Nat`, preserving every comparison the code performs.
* Python regular-expression searches are hand-compiled to executable matchers
  over `List Char` with leftmost-search and greedy (maximal-munch) semantics.
-/

namespace DevManager

/-- Insert-or-replace update of an association list, keeping the position of
an existing key, appending a new key at the end: CPython dict assignment. -/
def dictInsert {κ α : Type} [DecidableEq κ] : List (κ × α) → κ → α → List (κ × α)
  | [], k, v => [(k, v)]
  | (k', v') :: rest, k, v =>
    if k' = k then (k, v) :: rest else (k', v') :: dictInsert rest k v

/-- `PortAllocation` of `port_manager.py`: one advisory allocation record. -/
structure PortAllocation where
  port : Nat
  project_id : String
  project_name : String
  service_key : String
  service_name : String
  tech_stack : String
  allocated_at : String
  last_used : String
deriving DecidableEq, Repr

/-- The in-memory allocation table `self.allocations : Dict[int, PortAllocation]`. -/
abbrev Allocations := List (Nat × PortAllocation)

/-- `PortRange` of `port_manager.py` (`end` is spelled `end_` as Lean reserves it). -/
structure PortRange where
  name : String
  start : Nat
  end_ : Nat
  tech_stacks : List String
  description : String := ""
deriving DecidableEq, Repr

def frontend_dev : PortRange :=
  ⟨"前端开发服务器", 3000, 3999, ["react", "vue", "vite", "webpack", "create-react-app"],
    "React/Vue开发服务器默认范围"⟩

def frontend_vite : PortRange :=
  ⟨"Vite专用", 5170, 5199, ["vite"], "Vite默认5173及邻近端口"⟩

def backend_python : PortRange :=
  ⟨"Python后端", 8000, 8099, ["fastapi", "flask", "django", "uvicorn"], "Python Web框架常用范围"⟩

def backend_node : PortRange :=
  ⟨"Node.js后端", 4000, 4099, ["express", "koa", "nestjs"], "Node.js后端服务"⟩

def custom_range : PortRange :=
  ⟨"自定义服务", 9000, 9999, ["custom"], "其他自定义服务"⟩

/-- `PortManager.PORT_RANGES`, in its literal (insertion) order. -/
def PORT_RANGES : List (String × PortRange) :=
  [("frontend_dev", frontend_dev), ("frontend_vite", frontend_vite),
   ("backend_python", backend_python), ("backend_node", backend_node),
   ("custom", custom_range)]

/-- `PortManager.DEFAULT_PORTS`. -/
def DEFAULT_PORTS : List (String × Nat) :=
  [("vite", 5173), ("react", 3000), ("vue", 8080), ("create-react-app", 3000),
   ("webpack-dev-server", 8080), ("fastapi", 8000), ("flask", 5000), ("django", 8000),
   ("uvicorn", 8000), ("express", 3000), ("nestjs", 3000)]

/-- The ports `range(r.start, r.end + 1)` iterates, in order. -/
def rangePorts (r : PortRange) : List Nat :=
  List.range' r.start (r.end_ + 1 - r.start)

/-- `port not in self.allocations or self.allocations[port].project_id == project_id`. -/
def allocOk (allocs : Allocations) (project_id : String) (port : Nat) : Bool :=
  match allocs.lookup port with
  | none => true
  | some a => a.project_id == project_id

/-- The filter every one of `suggest_port`'s first three steps applies to a
candidate: not excluded, OS-available, and not claimed by another project. -/
def fullFilter (avail : Nat → Bool) (allocs : Allocations) (project_id : String)
    (exclude_ports : List Nat) (port : Nat) : Bool :=
  !(exclude_ports.contains port) && avail port && allocOk allocs project_id port

/-- Step 1 of `suggest_port`: the tech stack's conventional default port. -/
def suggestDefault (avail : Nat → Bool) (allocs : Allocations) (tech_stack : String)
    (project_id : String) (exclude_ports : List Nat) : Option Nat :=
  match DEFAULT_PORTS.lookup tech_stack with
  | some default_port =>
    if fullFilter avail allocs project_id exclude_ports default_port
    then some default_port else none
  | none => none

/-- Step 2 of `suggest_port`: scan each predefined range whose `tech_stacks`
contains the tech stack, in table order, returning the first passing port. -/
def suggestTechRange (avail : Nat → Bool) (allocs : Allocations) (tech_stack : String)
    (project_id : String) (exclude_ports : List Nat) : Option Nat :=
  (PORT_RANGES.filterMap (fun kv =>
    if kv.2.tech_stacks.contains tech_stack
    then (rangePorts kv.2).find? (fullFilter avail allocs project_id exclude_ports)
    else none)).head?

/-- Step 3 of `suggest_port`: scan the custom (overflow) range. -/
def suggestCustom (avail : Nat → Bool) (allocs : Allocations)
    (project_id : String) (exclude_ports : List Nat) : Option Nat :=
  (rangePorts custom_range).find? (fullFilter avail allocs project_id exclude_ports)

/-- Step 4 of `suggest_port`: `range(10000, 65535)`, i.e. 10000..65534; this
scan checks only the exclude set and OS availability, not the allocation table. -/
def suggestHigh (avail : Nat → Bool) (exclude_ports : List Nat) : Option Nat :=
  (List.range' 10000 55535).find? (fun port => !(exclude_ports.contains port) && avail port)

/-- `PortManager.suggest_port`: the four-step fallback chain; each Python
`return` becomes taking the first `some` of the chain, and the final
`raise RuntimeError` becomes `Except.error`. -/
def suggest_port (avail : Nat → Bool) (allocs : Allocations) (tech_stack : String)
    (project_id : String) (exclude_ports : List Nat) : Except String Nat :=
  match suggestDefault avail allocs tech_stack project_id exclude_ports with
  | some p => .ok p
  | none =>
  match suggestTechRange avail allocs tech_stack project_id exclude_ports with
  | some p => .ok p
  | none =>
  match suggestCustom avail allocs project_id exclude_ports with
  | some p => .ok p
  | none =>
  match suggestHigh avail exclude_ports with
  | some p => .ok p
  | none => .error "无法找到可用端口"

/-- `PortManager.allocate_port`: build the record and upsert it at its port. -/
def allocate_port (allocs : Allocations) (port : Nat)
    (project_id project_name service_key service_name tech_stack now : String) :
    Allocations × PortAllocation :=
  let allocation : PortAllocation :=
    ⟨port, project_id, project_name, service_key, service_name, tech_stack, now, now⟩
  (dictInsert allocs port allocation, allocation)

/-- `PortManager.release_port`: delete the entry when present. -/
def release_port (allocs : Allocations) (port : Nat) : Allocations :=
  if (allocs.lookup port).isSome then allocs.filter (fun kv => kv.1 != port) else allocs

/-- `PortManager.update_last_used`: bump the record's timestamp when present. -/
def update_last_used (allocs : Allocations) (port : Nat) (now : String) : Allocations :=
  allocs.map (fun kv => if kv.1 = port then (kv.1, { kv.2 with last_used := now }) else kv)

/-- The record-insertion loop of `PortManager.load`: each raw record either
parses (`some a`, inserted at key `a.port`) or raises in `from_dict` (`none`);
the exception is caught one level up, so insertion stops there but every
record inserted before the malformed one is kept. -/
def loadRecords (allocs : Allocations) : List (Option PortAllocation) → Allocations
  | [] => allocs
  | some a :: rest => loadRecords (dictInsert allocs a.port a) rest
  | none :: _ => allocs

/-- `PortManager.load` over a starting empty table: `none` stands for a
missing file or a document whose top-level parse raises. -/
def load (doc : Option (List (Option PortAllocation))) : Allocations :=
  match doc with
  | none => []
  | some recs => loadRecords [] recs

/-! ### Conflict detection (`PortManager.check_conflicts`)

`check_conflicts` iterates the given projects' services; it handles both the
legacy `ServiceConfig` (bare `port` / `cwd` attributes, from `models.py`) and
the enhanced one (`port_config : PortConfig` / `working_dir`, from
`enhanced_models.py`) through `getattr`/`hasattr`, so the embedded service
record carries both optional shapes. -/

/-- `PortConfig` of `enhanced_models.py` (fields used plus the rest of the
record; `confidence` scaled ×100). -/
structure PortConfig where
  port : Nat
  original_port : Option Nat := none
  detected_port : Option Nat := none
  port_source : String := ""
  port_source_file : String := ""
  mapped_port : Option Nat := none
  confidence : Nat := 0
deriving DecidableEq, Repr

/-- A service as `check_conflicts` sees it: `legacy_port`/`cwd` model
`getattr(service, 'port'/'cwd', None)` on the legacy shape, `port_config` and
`working_dir` the enhanced shape. -/
structure ServiceRec where
  enabled : Bool := true
  name : String := ""
  command : String := ""
  legacy_port : Option Nat := none
  port_config : Option PortConfig := none
  cwd : Option String := none
  working_dir : Option String := none
deriving DecidableEq, Repr

/-- A project as `check_conflicts` sees it: `services` keeps dict order. -/
structure ProjectRec where
  id : String
  name : String := ""
  services : List (String × ServiceRec) := []
deriving DecidableEq, Repr

/-- One entry of a `port_usage` group (the dict appended per conflicting user). -/
structure ConflictUser where
  project_id : String
  project_name : String
  service_key : String
  service_name : String
  command : String
  cwd : Option String
deriving DecidableEq, Repr

/-- `port = getattr(service, 'port', None) or (service.port_config.port if … else None)`:
Python `or` falls through when the left side is `None` **or** `0` (falsy). -/
def svcPortRaw (s : ServiceRec) : Option Nat :=
  match s.legacy_port with
  | some n => if n == 0 then s.port_config.map (fun pc => pc.port) else some n
  | none => s.port_config.map (fun pc => pc.port)

/-- `original_port = service.port_config.original_port` when a `port_config`
is present, else `None`. -/
def svcOriginal (s : ServiceRec) : Option Nat :=
  match s.port_config with
  | some pc => pc.original_port
  | none => none

/-- `cwd = getattr(service, 'cwd', None) or getattr(service, 'working_dir', None)`
(Python `or` on strings: the empty string is falsy). -/
def svcCwd (s : ServiceRec) : Option String :=
  match s.cwd with
  | some c => if c == "" then s.working_dir else some c
  | none => s.working_dir

/-- The body of `check_conflicts`'s collection loop for one `(service_key,
service)` of a project: `none` when a `continue` fires, otherwise the port
and the usage entry appended for it. -/
def entryOf (project : ProjectRec) (kv : String × ServiceRec) : Option (Nat × ConflictUser) :=
  let service := kv.2
  if !service.enabled then none
  else
    match svcPortRaw service with
    | none => none
    | some port =>
      if port == 0 then none
      else
        match svcOriginal service with
        | some o =>
          if o != 0 && o != port then none
          else some (port, ⟨project.id, project.name, kv.1, service.name, service.command, svcCwd service⟩)
        | none => some (port, ⟨project.id, project.name, kv.1, service.name, service.command, svcCwd service⟩)

/-- Append one usage entry into `port_usage`, creating the port's group at the
end on first sight (CPython dict/list semantics). -/
def addUsage : List (Nat × List ConflictUser) → Nat → ConflictUser →
    List (Nat × List ConflictUser)
  | [], port, u => [(port, [u])]
  | (p, us) :: rest, port, u =>
    if p = port then (p, us ++ [u]) :: rest else (p, us) :: addUsage rest port u

/-- `PortManager.check_conflicts`: collect `port_usage`, then keep the groups
of size > 1 (each reported with `severity: high`, elided here). -/
def check_conflicts (projects : List ProjectRec) : List (Nat × List ConflictUser) :=
  let usage :=
    (projects.flatMap (fun pr => pr.services.filterMap (entryOf pr))).foldl
      (fun acc e => addUsage acc e.1 e.2) []
  usage.filter (fun g => g.2.length > 1)

/-! ### Process supervisor (`process_manager.py`)

The OS process handle is reduced to a pid plus an `alive` flag standing for
`process.poll() is None`; spawning is an explicit `spawn : Except String Nat`
outcome and timestamps an explicit `now` string. Each modelled operation
returns, besides its boolean result and the new state, the list of lines it
pushed through `_notify_log` (subscriber delivery). -/

/-- `ProcessManager.MAX_LOG_LINES`. -/
def MAX_LOG_LINES : Nat := 500

/-- `ProcessInfo`: the OS handle (pid + liveness) and the log ring buffer. -/
structure ProcInfo where
  pid : Nat
  alive : Bool
  logs : List String
deriving DecidableEq, Repr

/-- The supervisor's `self.processes` table. -/
structure PMState where
  processes : List (String × ProcInfo)
deriving DecidableEq, Repr

/-- `ProcessManager._get_key`: `f"{project_id}:{service}"`. -/
def get_key (project_id service : String) : String :=
  project_id ++ ":" ++ service

/-- `deque.append` on a deque constructed with `maxlen`: append, evicting from
the front whenever the capacity would be exceeded. -/
def dequeAppend (maxlen : Nat) (logs : List String) (line : String) : List String :=
  let l := logs ++ [line]
  if maxlen < l.length then l.drop (l.length - maxlen) else l

/-- A sequence of emitted lines pushed one by one into a ring buffer, as
`start_service`'s startup lines and `_read_output`'s reader loop do. -/
def emitLines (logs : List String) (lines : List String) : List String :=
  lines.foldl (dequeAppend MAX_LOG_LINES) logs

/-- `ProcessManager.is_running`: a registered entry whose process has not
exited (`poll() is None`). -/
def is_running (st : PMState) (project_id service : String) : Bool :=
  match st.processes.lookup (get_key project_id service) with
  | some info => info.alive
  | none => false

/-- `ProcessManager.get_logs`: `list(deque)` for a registered key, else `[]`. -/
def get_logs (st : PMState) (project_id service : String) : List String :=
  match st.processes.lookup (get_key project_id service) with
  | some info => info.logs
  | none => []

/-- `ProcessManager.start_service`: early success when already running;
otherwise emit the two startup lines, then either register the spawned
process or report the spawn failure line. Result: `(returned bool, new state,
lines pushed through _notify_log by this call)`. -/
def start_service (spawn : Except String Nat) (now : String) (st : PMState)
    (project_id service command cwd : String) : Bool × PMState × List String :=
  let key := get_key project_id service
  if is_running st project_id service then (true, st, [])
  else
    let startup_log := "[" ++ now ++ "] 启动命令: " ++ command
    let cwd_log := "[" ++ now ++ "] 工作目录: " ++ cwd
    match spawn with
    | .error e => (false, st, [startup_log, cwd_log, "[错误] 启动失败: " ++ e])
    | .ok pid =>
      (true, ⟨dictInsert st.processes key ⟨pid, true, [startup_log, cwd_log]⟩⟩,
        [startup_log, cwd_log])

/-- `ProcessManager.stop_service`: early success when nothing is managed for
the key; otherwise terminate (a kill-phase error only adds a warning line),
always delete the bookkeeping entry and push the stopped line. -/
def stop_service (killErr : Option String) (st : PMState)
    (project_id service : String) : Bool × PMState × List String :=
  let key := get_key project_id service
  match st.processes.lookup key with
  | none => (true, st, [])
  | some _ =>
    let warn := match killErr with
      | some e => ["[警告] 停止时出错: " ++ e]
      | none => []
    (true, ⟨st.processes.filter (fun kv => kv.1 != key)⟩, warn ++ ["[系统] 服务已停止"])

/-- Deliver a burst of reader-thread output lines into the ring buffer of the
key's registered process (the mutation `logs.append(line)` performs). -/
def emitToKey (st : PMState) (project_id service : String) (lines : List String) : PMState :=
  ⟨st.processes.map (fun kv =>
    if kv.1 == get_key project_id service
    then (kv.1, { kv.2 with logs := emitLines kv.2.logs lines })
    else kv)⟩

/-! ### Port-source detector (`port_detector.py`)

A project directory is a finite map from relative file name to file content
(`FS`); `os.path.exists` becomes a lookup. Each `re` pattern of the source is
hand-compiled to an executable matcher over `List Char` with Python
semantics: `re.search` tries every start position left to right; a `^` with
`re.MULTILINE` restricts start positions to the string start and positions
after a newline; greedy pieces use maximal munch, with explicit backtracking
where the source pattern needs it (`[^)]*` before `port`). -/

/-- The consumed read-only file tree: relative path to text content. -/
abbrev FS := List (String × String)

/-- `PortDetectionResult` of `port_detector.py` (`confidence` scaled ×100). -/
structure PortDetectionResult where
  port : Option Nat
  source : String
  confidence : Nat
  env_var : Option String := none
  details : String := ""
deriving DecidableEq, Repr

/-- Python `\w` on the ASCII inputs at hand: letters, digits, underscore. -/
def isWordChar (c : Char) : Bool :=
  c.isAlphanum || c == '_'

/-- Python `\s` on ASCII: space and the control whitespace characters 9–13. -/
def isSpaceChar (c : Char) : Bool :=
  c == ' ' || (9 ≤ c.toNat && c.toNat ≤ 13)

/-- Greedy `\d+` continuation: accumulate the decimal value. -/
def digitsAux (acc : Nat) : List Char → Nat × List Char
  | c :: rest => if c.isDigit then digitsAux (acc * 10 + (c.toNat - 48)) rest else (acc, c :: rest)
  | [] => (acc, [])

/-- `(\d+)` at the current position: at least one digit, maximal munch;
returns the captured value and the remainder. -/
def takeDigits : List Char → Option (Nat × List Char)
  | c :: rest => if c.isDigit then some (digitsAux (c.toNat - 48) rest) else none
  | [] => none

/-- Match a literal character sequence at the current position. -/
def stripLit : List Char → List Char → Option (List Char)
  | [], cs => some cs
  | _ :: _, [] => none
  | l :: ls, c :: cs => if c == l then stripLit ls cs else none

/-- Match a literal character sequence case-insensitively (re.IGNORECASE). -/
def stripLitCI : List Char → List Char → Option (List Char)
  | [], cs => some cs
  | _ :: _, [] => none
  | l :: ls, c :: cs => if c.toLower == l.toLower then stripLitCI ls cs else none

/-- `re.search` without `^`: try the pattern at every position, leftmost wins. -/
def searchOpt {α : Type} (matchAt : List Char → Option α) : List Char → Option α
  | [] => matchAt []
  | c :: rest =>
    match matchAt (c :: rest) with
    | some r => some r
    | none => searchOpt matchAt rest

/-- The positions after a newline, for a `^`-anchored multi-line search. -/
def searchAfterNL {α : Type} (matchAt : List Char → Option α) : List Char → Option α
  | [] => none
  | c :: rest =>
    if c == '\n' then
      match matchAt rest with
      | some r => some r
      | none => searchAfterNL matchAt rest
    else searchAfterNL matchAt rest

/-- `re.search` of a `^`-anchored pattern under `re.MULTILINE`: start of the
string first, then after each newline, left to right. -/
def mlSearch {α : Type} (matchAt : List Char → Option α) (cs : List Char) : Option α :=
  match matchAt cs with
  | some r => some r
  | none => searchAfterNL matchAt cs

/-- Whether the text contains a literal substring (Python `sub in content`). -/
def containsSub (sub : List Char) (cs : List Char) : Bool :=
  (searchOpt (stripLit sub) cs).isSome

/-- `\$env:(\w+)\s*=\s*(\d+)` at the current position (PowerShell idiom). -/
def psEnvAt (cs : List Char) : Option (String × Nat) :=
  match stripLit ['$', 'e', 'n', 'v', ':'] cs with
  | none => none
  | some rest =>
    let w := rest.takeWhile isWordChar
    if w.isEmpty then none
    else
      match (rest.drop w.length).dropWhile isSpaceChar with
      | '=' :: rest2 =>
        match takeDigits (rest2.dropWhile isSpaceChar) with
        | some (n, _) => some (String.mk w, n)
        | none => none
      | _ => none

/-- `^(\w+)=(\d+)\s+` anchored at the string start (Bash idiom). -/
def bashEnvAt (cs : List Char) : Option (String × Nat) :=
  let w := cs.takeWhile isWordChar
  if w.isEmpty then none
  else
    match cs.drop w.length with
    | '=' :: rest =>
      match takeDigits rest with
      | some (n, c :: _) => if isSpaceChar c then some (String.mk w, n) else none
      | _ => none
    | _ => none

/-- `--port[=\s]+(\d+)` at the current position (case-sensitive form). -/
def portFlagAt (cs : List Char) : Option Nat :=
  match stripLit ['-', '-', 'p', 'o', 'r', 't'] cs with
  | none => none
  | some rest =>
    let seps := rest.takeWhile (fun c => c == '=' || isSpaceChar c)
    if seps.isEmpty then none
    else
      match takeDigits (rest.drop seps.length) with
      | some (n, _) => some n
      | none => none

/-- `-p[=\s]+(\d+)` at the current position. -/
def pFlagAt (cs : List Char) : Option Nat :=
  match stripLit ['-', 'p'] cs with
  | none => none
  | some rest =>
    let seps := rest.takeWhile (fun c => c == '=' || isSpaceChar c)
    if seps.isEmpty then none
    else
      match takeDigits (rest.drop seps.length) with
      | some (n, _) => some n
      | none => none

/-- `PortDetector.detect_env_port_override`: the four command-text idioms in
source order; the flag idioms report variable name `PORT`. -/
def detect_env_port_override (command : String) : Option (String × Nat) :=
  let cs := command.toList
  match searchOpt psEnvAt cs with
  | some r => some r
  | none =>
  match bashEnvAt cs with
  | some r => some r
  | none =>
  match searchOpt portFlagAt cs with
  | some n => some ("PORT", n)
  | none =>
  match searchOpt pFlagAt cs with
  | some n => some ("PORT", n)
  | none => none

/-- `port\s*=\s*(\d+)` case-insensitively at the current position: the shared
tail of the `uvicorn.run(...)`, `.run(...)` and `^PORT/^port` patterns of
`_check_python_port` (all searched with `re.IGNORECASE`). -/
def portEqAt (cs : List Char) : Option Nat :=
  match stripLitCI ['p', 'o', 'r', 't'] cs with
  | none => none
  | some rest =>
    match rest.dropWhile isSpaceChar with
    | '=' :: rest2 => (takeDigits (rest2.dropWhile isSpaceChar)).map (fun r => r.1)
    | _ => none

/-- Greedy `[^)]*port\s*=\s*(\d+)`: consume as many non-`)` characters as
possible, backtracking one at a time until the tail matches. -/
def runTail : List Char → Option Nat
  | [] => portEqAt []
  | c :: rest =>
    if c == ')' then portEqAt (c :: rest)
    else
      match runTail rest with
      | some n => some n
      | none => portEqAt (c :: rest)

/-- `uvicorn\.run\([^)]*port\s*=\s*(\d+)` at the current position (IGNORECASE). -/
def uvicornRunAt (cs : List Char) : Option Nat :=
  match stripLitCI ['u', 'v', 'i', 'c', 'o', 'r', 'n', '.', 'r', 'u', 'n', '('] cs with
  | some rest => runTail rest
  | none => none

/-- `\.run\([^)]*port\s*=\s*(\d+)` at the current position (IGNORECASE). -/
def dotRunAt (cs : List Char) : Option Nat :=
  match stripLitCI ['.', 'r', 'u', 'n', '('] cs with
  | some rest => runTail rest
  | none => none

/-- `--port[=\s]+(\d+)` at the current position, case-insensitive (as searched
by `_check_python_port`, whose flags include `re.IGNORECASE`). -/
def portFlagAtCI (cs : List Char) : Option Nat :=
  match stripLitCI ['-', '-', 'p', 'o', 'r', 't'] cs with
  | none => none
  | some rest =>
    let seps := rest.takeWhile (fun c => c == '=' || isSpaceChar c)
    if seps.isEmpty then none
    else
      match takeDigits (rest.drop seps.length) with
      | some (n, _) => some n
      | none => none

/-- `["\']PORT["\']` at the current position (each quote independently either
kind, as a regex character class allows). -/
def quotedPORT (cs : List Char) : Bool :=
  match cs with
  | q :: rest =>
    if q == '"' || q == '\'' then
      match stripLit ['P', 'O', 'R', 'T'] rest with
      | some (q2 :: _) => q2 == '"' || q2 == '\''
      | _ => false
    else false
  | [] => false

/-- `os\.environ(?:\[|\.get\()\s*["\']PORT["\']` at the current position. -/
def envRef1At (cs : List Char) : Option Unit :=
  match stripLit ['o', 's', '.', 'e', 'n', 'v', 'i', 'r', 'o', 'n'] cs with
  | none => none
  | some rest =>
    let afterOpen : Option (List Char) :=
      match rest with
      | '[' :: r => some r
      | _ => stripLit ['.', 'g', 'e', 't', '('] rest
    match afterOpen with
    | some r => if quotedPORT (r.dropWhile isSpaceChar) then some () else none
    | none => none

/-- `os\.getenv\(\s*["\']PORT["\']` at the current position. -/
def envRef2At (cs : List Char) : Option Unit :=
  match stripLit ['o', 's', '.', 'g', 'e', 't', 'e', 'n', 'v', '('] cs with
  | some r => if quotedPORT (r.dropWhile isSpaceChar) then some () else none
  | none => none

/-- The Python entry files `_check_python_port` probes, in order. -/
def pythonEntryFiles : List String := ["main.py", "app.py", "run.py", "server.py"]

/-- The per-file body of `_check_python_port`: the five literal-port patterns
in source order, then the environment-variable fallback. -/
def checkPythonFile (entry_file : String) (content : List Char) : Option PortDetectionResult :=
  let lit : Option Nat :=
    match searchOpt uvicornRunAt content with
    | some n => some n
    | none =>
    match searchOpt dotRunAt content with
    | some n => some n
    | none =>
    match mlSearch portEqAt content with
    | some n => some n
    | none =>
    match mlSearch portEqAt content with
    | some n => some n
    | none => searchOpt portFlagAtCI content
  match lit with
  | some port => some ⟨some port, entry_file, 90, none, "从 Python 源码读取"⟩
  | none =>
    if containsSub ['o', 's', '.', 'e', 'n', 'v', 'i', 'r', 'o', 'n'] content
        || containsSub ['o', 's', '.', 'g', 'e', 't', 'e', 'n', 'v'] content then
      if (searchOpt envRef1At content).isSome || (searchOpt envRef2At content).isSome then
        some ⟨none, entry_file, 75, some "PORT", "Python 代码使用环境变量 PORT"⟩
      else none
    else none

/-- `PortDetector._check_python_port`: first existing entry file whose body
yields a result wins; a file with no match falls through to the next. -/
def check_python_port (fs : FS) : Option PortDetectionResult :=
  go pythonEntryFiles
where
  go : List String → Option PortDetectionResult
    | [] => none
    | f :: rest =>
      match fs.lookup f with
      | none => go rest
      | some content =>
        match checkPythonFile f content.toList with
        | some r => some r
        | none => go rest

/-- The environment files `_check_env_files` probes, in order. -/
def envFiles : List String := [".env", ".env.local", ".env.development", ".env.dev"]

/-- `^NAME\s*=\s*(\d+)` (case-sensitive, MULTILINE-anchored) at the position. -/
def envAssignAt (varname : List Char) (cs : List Char) : Option Nat :=
  match stripLit varname cs with
  | none => none
  | some rest =>
    match rest.dropWhile isSpaceChar with
    | '=' :: rest2 => (takeDigits (rest2.dropWhile isSpaceChar)).map (fun r => r.1)
    | _ => none

/-- The four variable names `_check_env_files` tries, in source order. -/
def envVarNames : List (List Char) :=
  [['P', 'O', 'R', 'T'],
   ['V', 'I', 'T', 'E', '_', 'P', 'O', 'R', 'T'],
   ['R', 'E', 'A', 'C', 'T', '_', 'A', 'P', 'P', '_', 'P', 'O', 'R', 'T'],
   ['V', 'U', 'E', '_', 'A', 'P', 'P', '_', 'P', 'O', 'R', 'T']]

/-- `PortDetector._check_env_files`. -/
def check_env_files (fs : FS) : Option PortDetectionResult :=
  go envFiles
where
  go : List String → Option PortDetectionResult
    | [] => none
    | f :: rest =>
      match fs.lookup f with
      | none => go rest
      | some content =>
        match (envVarNames.filterMap
            (fun v => mlSearch (envAssignAt v) content.toList)).head? with
        | some port => some ⟨some port, f, 85, none, "从环境变量文件读取"⟩
        | none => go rest

/-- The Node entry files `_check_node_backend_port` probes, in order. -/
def nodeEntryFiles : List String :=
  ["server.js", "app.js", "index.js", "src/server.js", "src/app.js", "src/index.js"]

/-- `(?:const|let|var)\s+PORT\s*=\s*(\d+)` at the current position. -/
def constPortAt (cs : List Char) : Option Nat :=
  let kw : Option (List Char) :=
    match stripLit ['c', 'o', 'n', 's', 't'] cs with
    | some r => some r
    | none =>
    match stripLit ['l', 'e', 't'] cs with
    | some r => some r
    | none => stripLit ['v', 'a', 'r'] cs
  match kw with
  | none => none
  | some rest =>
    let sp := rest.takeWhile isSpaceChar
    if sp.isEmpty then none
    else envAssignAt ['P', 'O', 'R', 'T'] (rest.drop sp.length)

/-- `\.listen\(\s*(\d+)` at the current position. -/
def listenAt (cs : List Char) : Option Nat :=
  match stripLit ['.', 'l', 'i', 's', 't', 'e', 'n', '('] cs with
  | some rest => (takeDigits (rest.dropWhile isSpaceChar)).map (fun r => r.1)
  | none => none

/-- `port\s*:\s*(\d+)` at the current position. -/
def portColonAt (cs : List Char) : Option Nat :=
  match stripLit ['p', 'o', 'r', 't'] cs with
  | none => none
  | some rest =>
    match rest.dropWhile isSpaceChar with
    | ':' :: rest2 => (takeDigits (rest2.dropWhile isSpaceChar)).map (fun r => r.1)
    | _ => none

/-- `PortDetector._check_node_backend_port`. -/
def check_node_backend_port (fs : FS) : Option PortDetectionResult :=
  go nodeEntryFiles
where
  go : List String → Option PortDetectionResult
    | [] => none
    | f :: rest =>
      match fs.lookup f with
      | none => go rest
      | some content =>
        let cs := content.toList
        let lit : Option Nat :=
          match searchOpt constPortAt cs with
          | some n => some n
          | none =>
          match searchOpt listenAt cs with
          | some n => some n
          | none => searchOpt portColonAt cs
        match lit with
        | some port => some ⟨some port, f, 85, none, "从 Node.js 源码读取"⟩
        | none =>
          if containsSub "process.env.PORT".toList cs then
            some ⟨none, f, 70, some "PORT", "Node.js 代码使用环境变量 PORT"⟩
          else go rest

/-- Python `max(results, key=…)`: the first element of maximal confidence. -/
def maxByConfidence (r : PortDetectionResult) : List PortDetectionResult → PortDetectionResult
  | [] => r
  | x :: rest => maxByConfidence (if x.confidence > r.confidence then x else r) rest

/-- `PortDetector.detect_backend_port`: the Python, env-file and Node checks
in order, each short-circuiting above confidence 0.70; otherwise the maximal
surviving result, or the zero-confidence default. -/
def detect_backend_port (fs : FS) : PortDetectionResult :=
  let python_result := check_python_port fs
  match python_result with
  | some r =>
    if r.confidence > 70 then r
    else rest70 fs python_result
  | none => rest70 fs python_result
where
  rest70 (fs : FS) (python_result : Option PortDetectionResult) : PortDetectionResult :=
    let env_result := check_env_files fs
    match env_result with
    | some r =>
      if r.confidence > 70 then r
      else rest85 fs python_result env_result
    | none => rest85 fs python_result env_result
  rest85 (fs : FS) (python_result env_result : Option PortDetectionResult) :
      PortDetectionResult :=
    let node_result := check_node_backend_port fs
    match node_result with
    | some r =>
      if r.confidence > 70 then r
      else finish python_result env_result node_result
    | none => finish python_result env_result node_result
  finish (python_result env_result node_result : Option PortDetectionResult) :
      PortDetectionResult :=
    match [python_result, env_result, node_result].filterMap id with
    | r :: rest => maxByConfidence r rest
    | [] => ⟨none, "default", 0, none, "未找到端口配置"⟩

/-! ## Shared helper lemmas -/

/-- A lookup never finds a key the surrounding filter removed. -/
theorem lookup_filter_ne {α : Type} (l : List (String × α)) (k : String) :
    (l.filter (fun kv => kv.1 != k)).lookup k = none := by
  induction l with
  | nil => rfl
  | cons hd tl ih =>
    obtain ⟨k', v⟩ := hd
    rw [List.filter_cons]
    by_cases hk : k' = k
    · simpa [hk] using ih
    · have hne : ((k', v).1 != k) = true := by simpa using hk
      rw [hne]
      have hkk : (k == k') = false := beq_eq_false_iff_ne.mpr (Ne.symm hk)
      simp only [List.lookup, hkk]
      exact ih

/-- Membership after a dict upsert: the new pair or an old one. -/
theorem mem_dictInsert {κ α : Type} [DecidableEq κ] (l : List (κ × α)) (k : κ) (v : α)
    (x : κ × α) : x ∈ dictInsert l k v → x = (k, v) ∨ x ∈ l := by
  induction l with
  | nil => intro hx; simpa [dictInsert] using hx
  | cons hd tl ih =>
    intro hx
    unfold dictInsert at hx
    by_cases hk : hd.1 = k
    · rw [if_pos hk] at hx
      rcases List.mem_cons.mp hx with h | h
      · exact Or.inl h
      · exact Or.inr (List.mem_cons_of_mem _ h)
    · rw [if_neg hk] at hx
      rcases List.mem_cons.mp hx with h | h
      · exact Or.inr (h ▸ List.mem_cons_self hd tl)
      · rcases ih h with h' | h'
        · exact Or.inl h'
        · exact Or.inr (List.mem_cons_of_mem _ h')

/-! ## C4 — `start_service` is idempotent on a live key -/

/-- C4: when a live managed process exists for the key, a second
`start_service` call returns success, leaves the supervisor state (and hence
the registered process) unchanged, and pushes no log lines. -/
theorem start_service_idempotent (spawn : Except String Nat) (now : String) (st : PMState)
    (project_id service command cwd : String)
    (h : is_running st project_id service = true) :
    start_service spawn now st project_id service command cwd = (true, st, []) := by
  unfold start_service
  simp [h]

/-- C4 witness: a concrete live key, restarted. -/
theorem start_service_idempotent_witness :
    start_service (.ok 99) "12:00:00" ⟨[("p:web", ⟨41, true, ["old line"]⟩)]⟩
        "p" "web" "npm run dev" "/proj"
      = (true, ⟨[("p:web", ⟨41, true, ["old line"]⟩)]⟩, []) :=
  start_service_idempotent _ _ _ _ _ _ _ (by decide)

/-! ## C10 — `stop_service` discards the key's ring buffer -/

/-- C10: immediately after `stop_service` returns, `get_logs` for that key is
empty: the bookkeeping entry holding the ring buffer is deleted (or was never
there), so previously captured lines are unreachable through `get_logs`. -/
theorem stop_service_clears_logs (killErr : Option String) (st : PMState)
    (project_id service : String) :
    get_logs (stop_service killErr st project_id service).2.1 project_id service = [] := by
  unfold stop_service
  cases h : st.processes.lookup (get_key project_id service) with
  | none => simp [get_logs, h]
  | some info => simp [get_logs, h, lookup_filter_ne]

/-! ## C6 — loading a malformed persisted document -/

/-- C6 counterexample: a document whose record list holds one well-formed
record followed by a malformed one loads into a table that still contains the
well-formed record — not the empty table the claim demands. -/
theorem load_partial_table_counterexample :
    load (some [some ⟨8000, "p", "n", "backend", "api", "fastapi", "t1", "t2"⟩, none])
        = [(8000, ⟨8000, "p", "n", "backend", "api", "fastapi", "t1", "t2"⟩)] ∧
      load (some [some ⟨8000, "p", "n", "backend", "api", "fastapi", "t1", "t2"⟩, none])
        ≠ ([] : Allocations) := by
  exact ⟨rfl, by decide⟩

/-- The well-formed records before the first malformed one. -/
def goodRecs (recs : List (Option PortAllocation)) : List PortAllocation :=
  (recs.takeWhile Option.isSome).filterMap id

theorem loadRecords_eq_goodRecs (recs : List (Option PortAllocation)) :
    ∀ acc, loadRecords acc recs
      = (goodRecs recs).foldl (fun m a => dictInsert m a.port a) acc := by
  induction recs with
  | nil => intro acc; simp [loadRecords, goodRecs]
  | cons hd tl ih =>
    intro acc
    cases hd with
    | none => simp [loadRecords, goodRecs, List.takeWhile]
    | some a =>
      simp only [loadRecords, goodRecs, List.takeWhile, Option.isSome]
      simpa [goodRecs] using ih (dictInsert acc a.port a)

/-- C6 (amended): loading is total — it never propagates an error past the
load boundary; a missing or top-level-unparseable document yields the empty
table; and a document whose record list fails at some record keeps exactly
the well-formed records preceding the first malformed one. -/
theorem load_degrades (recs : List (Option PortAllocation)) :
    load none = [] ∧
    load (some recs) = (goodRecs recs).foldl (fun m a => dictInsert m a.port a) [] := by
  exact ⟨rfl, loadRecords_eq_goodRecs recs []⟩

/-! ## C9 — port values held by the registry -/

/-- The claimed data-model invariant: every record's port lies in [1, 65535]. -/
def PortsInRange (allocs : Allocations) : Prop :=
  ∀ kv ∈ allocs, 1 ≤ kv.2.port ∧ kv.2.port ≤ 65535

instance (allocs : Allocations) : Decidable (PortsInRange allocs) :=
  inferInstanceAs (Decidable (∀ kv ∈ allocs, 1 ≤ kv.2.port ∧ kv.2.port ≤ 65535))

/-- C9 counterexample: `allocate_port` validates nothing, so allocating port 0
stores a record whose port is outside [1, 65535]. -/
theorem allocate_port_zero_counterexample :
    (allocate_port [] 0 "p" "n" "front" "web" "vite" "now").1
      = [(0, ⟨0, "p", "n", "front", "web", "vite", "now", "now"⟩)] ∧
    ¬ PortsInRange (allocate_port [] 0 "p" "n" "front" "web" "vite" "now").1 := by
  exact ⟨rfl, by decide⟩

/-- C9 (amended): the registry preserves the [1, 65535] invariant under
`release_port` and `update_last_used` unconditionally, and under
`allocate_port` exactly when the port argument itself lies in [1, 65535];
`allocate_port` performs no validation of its own. -/
theorem allocations_ports_in_range (allocs : Allocations) (port : Nat)
    (project_id project_name service_key service_name tech_stack now : String)
    (hinv : PortsInRange allocs) (hlo : 1 ≤ port) (hhi : port ≤ 65535) :
    PortsInRange (allocate_port allocs port project_id project_name service_key
        service_name tech_stack now).1 ∧
    (∀ q, PortsInRange (release_port allocs q)) ∧
    (∀ q t, PortsInRange (update_last_used allocs q t)) := by
  refine ⟨?_, ?_, ?_⟩
  · intro kv hkv
    rcases mem_dictInsert _ _ _ _ hkv with h | h
    · subst h; exact ⟨hlo, hhi⟩
    · exact hinv kv h
  · intro q kv hkv
    unfold release_port at hkv
    by_cases hq : (allocs.lookup q).isSome
    · rw [if_pos hq] at hkv
      exact hinv kv (List.mem_of_mem_filter hkv)
    · rw [if_neg hq] at hkv
      exact hinv kv hkv
  · intro q t kv hkv
    unfold update_last_used at hkv
    rcases List.mem_map.mp hkv with ⟨kv', hkv', heq⟩
    have := hinv kv' hkv'
    by_cases hk : kv'.1 = q
    · rw [if_pos hk] at heq
      simpa [← heq] using this
    · rw [if_neg hk] at heq
      simpa [← heq] using this

/-- C9 witness: a concrete in-range allocation into a table already holding
one in-range record. -/
theorem allocations_ports_in_range_witness :
    PortsInRange (allocate_port [(3000, ⟨3000, "a", "a", "f", "w", "react", "t", "t"⟩)]
        8000 "p" "n" "back" "api" "fastapi" "now").1 ∧
    (∀ q, PortsInRange (release_port [(3000, ⟨3000, "a", "a", "f", "w", "react", "t", "t"⟩)] q)) ∧
    (∀ q t, PortsInRange
      (update_last_used [(3000, ⟨3000, "a", "a", "f", "w", "react", "t", "t"⟩)] q t)) :=
  allocations_ports_in_range _ 8000 "p" "n" "back" "api" "fastapi" "now"
    (by decide) (by decide) (by decide)

/-! ## C7 — `detect_env_port_override` and the `--port` flag idiom -/

/-- C7: the command text `run-server --port 4321` yields `("PORT", 4321)`;
and in general any command in which neither environment-assignment idiom
(PowerShell `$env:VAR=n`, Bash `VAR=n …`) matches but the `--port` flag
matcher finds `n` yields `("PORT", n)`. -/
theorem detect_env_port_override_port_flag :
    detect_env_port_override "run-server --port 4321" = some ("PORT", 4321) ∧
    ∀ (command : String) (n : Nat),
      searchOpt psEnvAt command.toList = none →
      bashEnvAt command.toList = none →
      searchOpt portFlagAt command.toList = some n →
      detect_env_port_override command = some ("PORT", n) := by
  refine ⟨by decide, ?_⟩
  intro command n h1 h2 h3
  unfold detect_env_port_override
  simp only []
  rw [h1, h2, h3]

/-! ## C8 — `detect_backend_port` on a lone `port = 8100` entrypoint -/

/-- C8: for a backend directory whose only artifact is one of the recognized
Python entrypoint files with content `port = 8100`, `detect_backend_port`
returns port 8100 with confidence strictly above the 0.70 short-circuit
threshold and provenance naming that file. -/
theorem detect_backend_port_literal (name : String) (h : name ∈ pythonEntryFiles) :
    (detect_backend_port [(name, "port = 8100")]).port = some 8100 ∧
    70 < (detect_backend_port [(name, "port = 8100")]).confidence ∧
    (detect_backend_port [(name, "port = 8100")]).source = name := by
  simp only [pythonEntryFiles, List.mem_cons, List.not_mem_nil, or_false] at h
  rcases h with rfl | rfl | rfl | rfl <;> exact ⟨by decide, by decide, by decide⟩

/-- C8 witness: the scenario instantiated at `main.py`. -/
theorem detect_backend_port_literal_witness :
    (detect_backend_port [("main.py", "port = 8100")]).port = some 8100 ∧
    70 < (detect_backend_port [("main.py", "port = 8100")]).confidence ∧
    (detect_backend_port [("main.py", "port = 8100")]).source = "main.py" :=
  detect_backend_port_literal "main.py" (by decide)

/-! ## C3 — the log ring buffer never exceeds its capacity -/

/-- The last `m` elements of a list. -/
def lastN (m : Nat) (l : List String) : List String :=
  l.drop (l.length - m)

theorem dequeAppend_eq_lastN (m : Nat) (logs : List String) (line : String) :
    dequeAppend m logs line = lastN m (logs ++ [line]) := by
  unfold dequeAppend lastN
  by_cases h : m < (logs ++ [line]).length
  · rw [if_pos h]
  · rw [if_neg h]
    rw [Nat.sub_eq_zero_of_le (Nat.le_of_not_lt h), List.drop_zero]

theorem length_lastN (m : Nat) (l : List String) : (lastN m l).length = min m l.length := by
  unfold lastN
  rw [List.length_drop]
  omega

theorem lastN_append_lastN (m : Nat) (l r : List String) :
    lastN m (lastN m l ++ r) = lastN m (l ++ r) := by
  unfold lastN
  rw [List.drop_append_eq_append_drop, List.drop_drop, List.drop_append_eq_append_drop]
  simp only [List.length_append, List.length_drop]
  congr 1
  · congr 1
    omega
  · congr 1
    omega

theorem emitLines_lastN (lines : List String) :
    ∀ logs : List String, logs.length ≤ MAX_LOG_LINES →
      emitLines logs lines = lastN MAX_LOG_LINES (logs ++ lines) := by
  induction lines with
  | nil =>
    intro logs h
    unfold emitLines lastN
    rw [List.foldl_nil, List.append_nil, Nat.sub_eq_zero_of_le h, List.drop_zero]
  | cons a tl ih =>
    intro logs h
    show List.foldl (dequeAppend MAX_LOG_LINES) logs (a :: tl)
      = lastN MAX_LOG_LINES (logs ++ a :: tl)
    rw [List.foldl_cons, dequeAppend_eq_lastN]
    have hlen : (lastN MAX_LOG_LINES (logs ++ [a])).length ≤ MAX_LOG_LINES := by
      rw [length_lastN]; omega
    have h2 := ih (lastN MAX_LOG_LINES (logs ++ [a])) hlen
    unfold emitLines at h2
    rw [h2, lastN_append_lastN, List.append_assoc]
    rfl

/-- C3: from any reachable buffer (one of at most 500 lines), emitting any
further lines keeps the ring buffer at or below 500 lines; and for a freshly
registered key, after emitting N > 500 lines `get_logs` returns exactly the
last 500 emitted lines, oldest first. -/
theorem ring_buffer_bounded (project_id service : String) (pid : Nat)
    (logs0 lines : List String) (h0 : logs0.length ≤ MAX_LOG_LINES) :
    (emitLines logs0 lines).length ≤ MAX_LOG_LINES ∧
    (MAX_LOG_LINES < lines.length →
      get_logs (emitToKey ⟨[(get_key project_id service, ⟨pid, true, []⟩)]⟩
          project_id service lines) project_id service
        = lines.drop (lines.length - MAX_LOG_LINES)) := by
  constructor
  · rw [emitLines_lastN lines logs0 h0, length_lastN]
    omega
  · intro hN
    unfold emitToKey get_logs
    simp only [List.map_cons, List.map_nil, beq_self_eq_true, if_pos]
    rw [List.lookup]
    simp only [beq_self_eq_true]
    have := emitLines_lastN lines [] (by simp [MAX_LOG_LINES])
    rw [List.nil_append] at this
    rw [this]
    rfl

/-- C3 witness: 501 emitted lines against the 500-line capacity. -/
theorem ring_buffer_bounded_witness :
    (emitLines [] (List.replicate 501 "x")).length ≤ MAX_LOG_LINES ∧
    (MAX_LOG_LINES < (List.replicate 501 "x").length →
      get_logs (emitToKey ⟨[(get_key "p" "web", ⟨7, true, []⟩)]⟩
          "p" "web" (List.replicate 501 "x")) "p" "web"
        = (List.replicate 501 "x").drop ((List.replicate 501 "x").length - MAX_LOG_LINES)) :=
  ring_buffer_bounded "p" "web" 7 [] (List.replicate 501 "x") (by simp)

/-! ## C1 — what `suggest_port` guarantees about its result -/

theorem fullFilter_eq_true {avail : Nat → Bool} {allocs : Allocations}
    {project_id : String} {exclude_ports : List Nat} {p : Nat}
    (h : fullFilter avail allocs project_id exclude_ports p = true) :
    exclude_ports.contains p = false ∧ avail p = true ∧
      allocOk allocs project_id p = true := by
  unfold fullFilter at h
  simp only [Bool.and_eq_true, Bool.not_eq_true'] at h
  exact ⟨h.1.1, h.1.2, h.2⟩

theorem allocOk_lookup {allocs : Allocations} {project_id : String} {p : Nat}
    (h : allocOk allocs project_id p = true) (a : PortAllocation)
    (ha : allocs.lookup p = some a) : a.project_id = project_id := by
  unfold allocOk at h
  rw [ha] at h
  exact beq_iff_eq.mp h

theorem suggestDefault_some {avail : Nat → Bool} {allocs : Allocations}
    {tech_stack project_id : String} {exclude_ports : List Nat} {p : Nat}
    (h : suggestDefault avail allocs tech_stack project_id exclude_ports = some p) :
    fullFilter avail allocs project_id exclude_ports p = true := by
  unfold suggestDefault at h
  split at h
  · split at h
    · cases h
      assumption
    · cases h
  · cases h

theorem suggestTechRange_some {avail : Nat → Bool} {allocs : Allocations}
    {tech_stack project_id : String} {exclude_ports : List Nat} {p : Nat}
    (h : suggestTechRange avail allocs tech_stack project_id exclude_ports = some p) :
    fullFilter avail allocs project_id exclude_ports p = true := by
  unfold suggestTechRange at h
  cases hL : PORT_RANGES.filterMap (fun kv =>
      if kv.2.tech_stacks.contains tech_stack
      then (rangePorts kv.2).find? (fullFilter avail allocs project_id exclude_ports)
      else none) with
  | nil => rw [hL] at h; cases h
  | cons x xs =>
    rw [hL] at h
    have hx : x = p := by simpa [List.head?] using h
    subst hx
    have hmem : x ∈ PORT_RANGES.filterMap (fun kv =>
        if kv.2.tech_stacks.contains tech_stack
        then (rangePorts kv.2).find? (fullFilter avail allocs project_id exclude_ports)
        else none) := by
      rw [hL]; exact List.mem_cons_self x xs
    rcases List.mem_filterMap.mp hmem with ⟨kv, _, hkv⟩
    by_cases hc : kv.2.tech_stacks.contains tech_stack = true
    · rw [if_pos hc] at hkv
      exact List.find?_some hkv
    · rw [if_neg hc] at hkv
      cases hkv

theorem suggestCustom_some {avail : Nat → Bool} {allocs : Allocations}
    {project_id : String} {exclude_ports : List Nat} {p : Nat}
    (h : suggestCustom avail allocs project_id exclude_ports = some p) :
    fullFilter avail allocs project_id exclude_ports p = true :=
  List.find?_some h

theorem suggestHigh_some {avail : Nat → Bool} {exclude_ports : List Nat} {p : Nat}
    (h : suggestHigh avail exclude_ports = some p) :
    (exclude_ports.contains p = false ∧ avail p = true) ∧ 10000 ≤ p ∧ p < 65535 := by
  have hpred := List.find?_some h
  have hmem := List.mem_of_find?_eq_some h
  simp only [Bool.and_eq_true, Bool.not_eq_true'] at hpred
  exact ⟨hpred, by simpa using List.mem_range'_1.mp hmem⟩

/-- C1 (amended): a port returned by `suggest_port` is never in the exclude
set and is always OS-available; and whenever the returned port is claimed in
the allocation table by a *different* project, it can only have come from the
final ephemeral-range scan (10000–65534), which filters on the exclude set
and OS availability alone. The first three fallback steps never return a
port claimed by a different project. -/
theorem suggest_port_sound (avail : Nat → Bool) (allocs : Allocations)
    (tech_stack project_id : String) (exclude_ports : List Nat) (p : Nat)
    (h : suggest_port avail allocs tech_stack project_id exclude_ports = .ok p) :
    exclude_ports.contains p = false ∧ avail p = true ∧
    (∀ a, allocs.lookup p = some a → a.project_id ≠ project_id →
      10000 ≤ p ∧ p < 65535) := by
  unfold suggest_port at h
  cases h1 : suggestDefault avail allocs tech_stack project_id exclude_ports with
  | some q =>
    rw [h1] at h
    have hq : q = p := by simpa using h
    subst hq
    obtain ⟨he, ha, hok⟩ := fullFilter_eq_true (suggestDefault_some h1)
    exact ⟨he, ha, fun a hla hne => absurd (allocOk_lookup hok a hla) hne⟩
  | none =>
  rw [h1] at h
  cases h2 : suggestTechRange avail allocs tech_stack project_id exclude_ports with
  | some q =>
    rw [h2] at h
    have hq : q = p := by simpa using h
    subst hq
    obtain ⟨he, ha, hok⟩ := fullFilter_eq_true (suggestTechRange_some h2)
    exact ⟨he, ha, fun a hla hne => absurd (allocOk_lookup hok a hla) hne⟩
  | none =>
  rw [h2] at h
  cases h3 : suggestCustom avail allocs project_id exclude_ports with
  | some q =>
    rw [h3] at h
    have hq : q = p := by simpa using h
    subst hq
    obtain ⟨he, ha, hok⟩ := fullFilter_eq_true (suggestCustom_some h3)
    exact ⟨he, ha, fun a hla hne => absurd (allocOk_lookup hok a hla) hne⟩
  | none =>
  rw [h3] at h
  cases h4 : suggestHigh avail exclude_ports with
  | some q =>
    rw [h4] at h
    have hq : q = p := by simpa using h
    subst hq
    obtain ⟨⟨he, ha⟩, hbounds⟩ := suggestHigh_some h4
    exact ⟨he, ha, fun _ _ _ => hbounds⟩
  | none =>
    rw [h4] at h
    cases h

/-- C1 witness: a default-port success. -/
theorem suggest_port_sound_witness :
    ([] : List Nat).contains 5173 = false ∧ (fun _ => true) 5173 = true ∧
    (∀ a, ([] : Allocations).lookup 5173 = some a → a.project_id ≠ "p1" →
      10000 ≤ 5173 ∧ 5173 < 65535) :=
  suggest_port_sound (fun _ => true) [] "vite" "p1" [] 5173 rfl

set_option maxRecDepth 10000 in
/-- C1 counterexample: when the first three steps are exhausted (unknown tech
stack, every port below 10000 OS-unavailable), the final ephemeral scan
returns port 10000 even though the allocation table claims it for project
`proj-b`, while the caller asked on behalf of `proj-a` — refuting the claim
that no step ever returns a port claimed by a different project. -/
theorem suggest_port_cross_project_counterexample :
    suggest_port (fun port => decide (10000 ≤ port))
        [(10000, ⟨10000, "proj-b", "B", "frontend", "web", "vite", "t", "t"⟩)]
            "zzz" "proj-a" [] = .ok 10000 ∧
    ([(10000, (⟨10000, "proj-b", "B", "frontend", "web", "vite", "t", "t"⟩ :
        PortAllocation))].lookup 10000).map PortAllocation.project_id = some "proj-b" ∧
    "proj-b" ≠ "proj-a" := by
  exact ⟨rfl, rfl, by decide⟩

/-! ## C5 — exhaustion is the one failure of `suggest_port` -/

/-- A candidate fails the full filter: excluded, OS-unavailable, or claimed
in the table by a different project. -/
def CandidateFails (avail : Nat → Bool) (allocs : Allocations) (project_id : String)
    (exclude_ports : List Nat) (p : Nat) : Prop :=
  p ∈ exclude_ports ∨ avail p = false ∨ allocOk allocs project_id p = false

theorem fullFilter_eq_false_iff (avail : Nat → Bool) (allocs : Allocations)
    (project_id : String) (exclude_ports : List Nat) (p : Nat) :
    fullFilter avail allocs project_id exclude_ports p = false ↔
      CandidateFails avail allocs project_id exclude_ports p := by
  unfold fullFilter CandidateFails
  rcases hc : exclude_ports.contains p with _ | _ <;>
    rcases ha : avail p with _ | _ <;>
    rcases ho : allocOk allocs project_id p with _ | _ <;>
    simp_all [List.elem_eq_mem]

theorem suggestDefault_eq_none_iff (avail : Nat → Bool) (allocs : Allocations)
    (tech_stack project_id : String) (exclude_ports : List Nat) :
    suggestDefault avail allocs tech_stack project_id exclude_ports = none ↔
      ∀ dp, DEFAULT_PORTS.lookup tech_stack = some dp →
        fullFilter avail allocs project_id exclude_ports dp = false := by
  unfold suggestDefault
  cases hl : DEFAULT_PORTS.lookup tech_stack with
  | none => simp
  | some dp =>
    by_cases hf : fullFilter avail allocs project_id exclude_ports dp = true
    · simp [hf]
    · simp only [Bool.not_eq_true] at hf
      simp [hf]

theorem suggestTechRange_eq_none_iff (avail : Nat → Bool) (allocs : Allocations)
    (tech_stack project_id : String) (exclude_ports : List Nat) :
    suggestTechRange avail allocs tech_stack project_id exclude_ports = none ↔
      ∀ kv ∈ PORT_RANGES, kv.2.tech_stacks.contains tech_stack = true →
        ∀ p ∈ rangePorts kv.2,
          fullFilter avail allocs project_id exclude_ports p = false := by
  unfold suggestTechRange
  rw [List.head?_eq_none_iff, List.filterMap_eq_nil_iff]
  constructor
  · intro h kv hkv hc p hp
    have := h kv hkv
    rw [if_pos hc] at this
    have := List.find?_eq_none.mp this p hp
    simpa using this
  · intro h kv hkv
    by_cases hc : kv.2.tech_stacks.contains tech_stack = true
    · rw [if_pos hc, List.find?_eq_none]
      intro p hp
      simp [h kv hkv hc p hp]
    · rw [if_neg hc]

theorem suggestCustom_eq_none_iff (avail : Nat → Bool) (allocs : Allocations)
    (project_id : String) (exclude_ports : List Nat) :
    suggestCustom avail allocs project_id exclude_ports = none ↔
      ∀ p ∈ rangePorts custom_range,
        fullFilter avail allocs project_id exclude_ports p = false := by
  unfold suggestCustom
  rw [List.find?_eq_none]
  constructor
  · intro h p hp
    simpa using h p hp
  · intro h p hp
    simp [h p hp]

theorem suggestHigh_eq_none_iff (avail : Nat → Bool) (exclude_ports : List Nat) :
    suggestHigh avail exclude_ports = none ↔
      ∀ p ∈ List.range' 10000 55535, p ∈ exclude_ports ∨ avail p = false := by
  unfold suggestHigh
  rw [List.find?_eq_none]
  constructor
  · intro h p hp
    have := h p hp
    rcases hc : exclude_ports.contains p with _ | _ <;>
      rcases ha : avail p with _ | _ <;> simp_all [List.elem_eq_mem]
  · intro h p hp
    rcases h p hp with hc | ha
    · simp [List.elem_eq_mem, hc]
    · simp [ha]

/-- C5: `suggest_port` surfaces the "no port available" hard failure exactly
when every candidate of the whole fallback chain fails — the default port,
every port of every tech-stack range, every port of the overflow band (each
because it is excluded, OS-unavailable, or claimed by a different project),
and every port of the final 10000–65534 scan (excluded or OS-unavailable).
The right-to-left direction says exhaustion forces the failure; the
left-to-right direction says exhaustion is the only way not to return a port. -/
theorem suggest_port_error_iff_exhausted (avail : Nat → Bool) (allocs : Allocations)
    (tech_stack project_id : String) (exclude_ports : List Nat) :
    suggest_port avail allocs tech_stack project_id exclude_ports
        = .error "无法找到可用端口" ↔
      ((∀ dp, DEFAULT_PORTS.lookup tech_stack = some dp →
          CandidateFails avail allocs project_id exclude_ports dp) ∧
       (∀ kv ∈ PORT_RANGES, kv.2.tech_stacks.contains tech_stack = true →
          ∀ p ∈ rangePorts kv.2, CandidateFails avail allocs project_id exclude_ports p) ∧
       (∀ p ∈ rangePorts custom_range,
          CandidateFails avail allocs project_id exclude_ports p) ∧
       (∀ p ∈ List.range' 10000 55535, p ∈ exclude_ports ∨ avail p = false)) := by
  constructor
  · intro h
    unfold suggest_port at h
    cases h1 : suggestDefault avail allocs tech_stack project_id exclude_ports with
    | some q => rw [h1] at h; cases h
    | none =>
    rw [h1] at h
    cases h2 : suggestTechRange avail allocs tech_stack project_id exclude_ports with
    | some q => rw [h2] at h; cases h
    | none =>
    rw [h2] at h
    cases h3 : suggestCustom avail allocs project_id exclude_ports with
    | some q => rw [h3] at h; cases h
    | none =>
    rw [h3] at h
    cases h4 : suggestHigh avail exclude_ports with
    | some q => rw [h4] at h; cases h
    | none =>
    refine ⟨?_, ?_, ?_, suggestHigh_eq_none_iff avail exclude_ports |>.mp h4⟩
    · intro dp hdp
      rw [← fullFilter_eq_false_iff]
      exact (suggestDefault_eq_none_iff avail allocs tech_stack project_id
        exclude_ports).mp h1 dp hdp
    · intro kv hkv hc p hp
      rw [← fullFilter_eq_false_iff]
      exact (suggestTechRange_eq_none_iff avail allocs tech_stack project_id
        exclude_ports).mp h2 kv hkv hc p hp
    · intro p hp
      rw [← fullFilter_eq_false_iff]
      exact (suggestCustom_eq_none_iff avail allocs project_id exclude_ports).mp h3 p hp
  · intro ⟨hd, ht, hc, hh⟩
    have h1 : suggestDefault avail allocs tech_stack project_id exclude_ports = none := by
      rw [suggestDefault_eq_none_iff]
      intro dp hdp
      rw [fullFilter_eq_false_iff]
      exact hd dp hdp
    have h2 : suggestTechRange avail allocs tech_stack project_id exclude_ports = none := by
      rw [suggestTechRange_eq_none_iff]
      intro kv hkv hck p hp
      rw [fullFilter_eq_false_iff]
      exact ht kv hkv hck p hp
    have h3 : suggestCustom avail allocs project_id exclude_ports = none := by
      rw [suggestCustom_eq_none_iff]
      intro p hp
      rw [fullFilter_eq_false_iff]
      exact hc p hp
    have h4 : suggestHigh avail exclude_ports = none := by
      rw [suggestHigh_eq_none_iff]
      exact hh
    unfold suggest_port
    rw [h1, h2, h3, h4]

/-! ## C2 — `check_conflicts` reports exactly the multiply-claimed ports -/

/-- Stated from the spec's words: the service's one canonical assigned port —
the bare legacy port if the service carries one, else the structured
`port_config.port`, else nothing. -/
def specAssigned (s : ServiceRec) : Option Nat :=
  match s.legacy_port with
  | some n => some n
  | none => s.port_config.map (fun pc => pc.port)

/-- Stated from the spec's words: the (service-key, service) entry counts
toward port `q` when it is enabled, its assigned port equals `q`, and it
either records no original detected port or records one equal to its current
assigned port. -/
def countsForPort (kv : String × ServiceRec) (q : Nat) : Prop :=
  kv.2.enabled = true ∧ specAssigned kv.2 = some q ∧
    (svcOriginal kv.2 = none ∨ svcOriginal kv.2 = some q)

instance (kv : String × ServiceRec) (q : Nat) : Decidable (countsForPort kv q) :=
  inferInstanceAs (Decidable (kv.2.enabled = true ∧ specAssigned kv.2 = some q ∧
    (svcOriginal kv.2 = none ∨ svcOriginal kv.2 = some q)))

/-- The spec's §3 data-model invariant on an optional port: in [1, 65535]. -/
def inRangeOpt (o : Option Nat) : Bool :=
  match o with
  | none => true
  | some n => decide (1 ≤ n ∧ n ≤ 65535)

/-- A service whose recorded port values obey the data-model invariant. -/
def wfService (s : ServiceRec) : Bool :=
  inRangeOpt s.legacy_port &&
    (match s.port_config with
     | none => true
     | some pc => decide (1 ≤ pc.port ∧ pc.port ≤ 65535) && inRangeOpt pc.original_port)

/-- All services of all projects obey the data-model invariant. -/
def WFProjects (projects : List ProjectRec) : Prop :=
  ∀ pr ∈ projects, ∀ kv ∈ pr.services, wfService kv.2 = true

instance (projects : List ProjectRec) : Decidable (WFProjects projects) :=
  inferInstanceAs (Decidable (∀ pr ∈ projects, ∀ kv ∈ pr.services, wfService kv.2 = true))

theorem wf_legacy {s : ServiceRec} (h : wfService s = true) :
    ∀ n, s.legacy_port = some n → 1 ≤ n := by
  intro n hn
  unfold wfService inRangeOpt at h
  rw [hn] at h
  simp only [Bool.and_eq_true, decide_eq_true_eq] at h
  exact h.1.1

theorem wf_pcport {s : ServiceRec} (h : wfService s = true) :
    ∀ pc, s.port_config = some pc → 1 ≤ pc.port := by
  intro pc hpc
  unfold wfService at h
  rw [hpc] at h
  simp only [Bool.and_eq_true, decide_eq_true_eq] at h
  exact h.2.1.1

theorem wf_orig {s : ServiceRec} (h : wfService s = true) :
    ∀ pc n, s.port_config = some pc → pc.original_port = some n → 1 ≤ n := by
  intro pc n hpc hn
  unfold wfService inRangeOpt at h
  rw [hpc] at h
  simp only [Bool.and_eq_true, decide_eq_true_eq] at h
  obtain ⟨-, -, h3⟩ := h
  rw [hn] at h3
  simp only [decide_eq_true_eq] at h3
  exact h3.1

theorem svcPortRaw_eq_specAssigned {s : ServiceRec} (h : wfService s = true) :
    svcPortRaw s = specAssigned s := by
  unfold svcPortRaw specAssigned
  cases hl : s.legacy_port with
  | none => rfl
  | some n =>
    have h1 := wf_legacy h n hl
    have h0 : (n == 0) = false := by simp; omega
    simp [h0]

theorem specAssigned_pos {s : ServiceRec} (h : wfService s = true) :
    ∀ port, specAssigned s = some port → 1 ≤ port := by
  intro port hp
  unfold specAssigned at hp
  cases hl : s.legacy_port with
  | some n =>
    rw [hl] at hp
    cases hp
    exact wf_legacy h port hl
  | none =>
    rw [hl] at hp
    rcases Option.map_eq_some'.mp hp with ⟨pc, hpc, hport⟩
    exact hport ▸ wf_pcport h pc hpc

theorem svcOriginal_pos {s : ServiceRec} (h : wfService s = true) :
    ∀ o, svcOriginal s = some o → 1 ≤ o := by
  intro o ho
  unfold svcOriginal at ho
  cases hpc : s.port_config with
  | none => rw [hpc] at ho; cases ho
  | some pc =>
    rw [hpc] at ho
    exact wf_orig h pc o hpc ho

/-- Under the data-model invariant, the collection loop of `check_conflicts`
admits an entry at port `q` exactly when the spec-side counting predicate
holds at `q`. -/
theorem entryOf_fst_iff (pr : ProjectRec) (kv : String × ServiceRec) (q : Nat)
    (h : wfService kv.2 = true) :
    (entryOf pr kv).map Prod.fst = some q ↔ countsForPort kv q := by
  obtain ⟨key, s⟩ := kv
  unfold entryOf countsForPort
  cases hen : s.enabled with
  | false => simp [hen]
  | true =>
    simp only [hen, Bool.not_true, if_neg (by simp : ¬ (false = true)), true_and]
    rw [svcPortRaw_eq_specAssigned h]
    cases hsa : specAssigned s with
    | none => simp
    | some port =>
      have hpos := specAssigned_pos h port hsa
      have hport0 : (port == 0) = false := by simp; omega
      simp only [hport0]
      simp only [Bool.false_eq_true, if_neg (by simp : ¬ (false = true))]
      cases ho : svcOriginal s with
      | none => simp
      | some o =>
        have hopos := svcOriginal_pos h o ho
        have ho0 : (o != 0) = true := by simp; omega
        by_cases hop : o = port
        · subst hop
          simp
        · have hne : (o != port) = true := by simpa using hop
          simp [ho0, hne, hop]
          omega

/-- The filtered entry list counts at `q` exactly what the spec predicate
counts over the raw (service-key, service) list. -/
theorem countP_entries (pr : ProjectRec) (svcs : List (String × ServiceRec))
    (h : ∀ kv ∈ svcs, wfService kv.2 = true) (q : Nat) :
    (svcs.filterMap (entryOf pr)).countP (fun e => e.1 == q)
      = svcs.countP (fun kv => decide (countsForPort kv q)) := by
  induction svcs with
  | nil => rfl
  | cons kv tl ih =>
    have hkv := h kv (List.mem_cons_self kv tl)
    have htl := fun x hx => h x (List.mem_cons_of_mem kv hx)
    rw [List.filterMap_cons, List.countP_cons]
    cases he : entryOf pr kv with
    | none =>
      have hnc : ¬ countsForPort kv q := by
        intro hc
        have := (entryOf_fst_iff pr kv q hkv).mpr hc
        rw [he] at this
        cases this
      simp [ih htl, hnc]
    | some e =>
      have hfst : (entryOf pr kv).map Prod.fst = some e.1 := by rw [he]; rfl
      have hiff : countsForPort kv q ↔ e.1 = q := by
        rw [← entryOf_fst_iff pr kv q hkv, hfst]
        simp
      rw [List.countP_cons, ih htl]
      by_cases hq : e.1 = q
      · have h1 : (e.1 == q) = true := by simpa using hq
        have h2 : decide (countsForPort kv q) = true := by
          simp [hiff, hq]
        rw [h1, h2]
      · have h1 : (e.1 == q) = false := by simpa using hq
        have h2 : decide (countsForPort kv q) = false := by
          simp [hiff, hq]
        rw [h1, h2]

/-- Total count over the flattened project list. -/
theorem entries_count_eq (projects : List ProjectRec) (hwf : WFProjects projects) (q : Nat) :
    ((projects.flatMap (fun pr => pr.services.filterMap (entryOf pr))).countP
        (fun e => e.1 == q))
      = ((projects.flatMap (fun pr => pr.services.map (fun kv => (pr, kv)))).countP
          (fun x => decide (countsForPort x.2 q))) := by
  induction projects with
  | nil => rfl
  | cons pr tl ih =>
    rw [List.flatMap_cons, List.flatMap_cons, List.countP_append, List.countP_append]
    have h1 : ∀ kv ∈ pr.services, wfService kv.2 = true :=
      fun kv hkv => hwf pr (List.mem_cons_self pr tl) kv hkv
    have h2 : WFProjects tl :=
      fun p hp kv hkv => hwf p (List.mem_cons_of_mem pr hp) kv hkv
    rw [countP_entries pr pr.services h1 q, ih h2, List.countP_map]
    rfl

/-- The length of the group `port_usage` holds at key `q` (0 when absent). -/
def lenAt (acc : List (Nat × List ConflictUser)) (q : Nat) : Nat :=
  match acc.find? (fun g => g.1 == q) with
  | some g => g.2.length
  | none => 0

theorem lenAt_nil (q : Nat) : lenAt [] q = 0 := rfl

theorem lenAt_cons_eq (hp : Nat) (us : List ConflictUser)
    (tl : List (Nat × List ConflictUser)) (q : Nat) (h : hp = q) :
    lenAt ((hp, us) :: tl) q = us.length := by
  unfold lenAt
  rw [List.find?_cons_of_pos _ (by simpa using h)]

theorem lenAt_cons_ne (hp : Nat) (us : List ConflictUser)
    (tl : List (Nat × List ConflictUser)) (q : Nat) (h : ¬ hp = q) :
    lenAt ((hp, us) :: tl) q = lenAt tl q := by
  unfold lenAt
  rw [List.find?_cons_of_neg _ (by simpa using h)]

theorem addUsage_cons_eq (hp : Nat) (us : List ConflictUser)
    (tl : List (Nat × List ConflictUser)) (p : Nat) (u : ConflictUser) (h : hp = p) :
    addUsage ((hp, us) :: tl) p u = (hp, us ++ [u]) :: tl := by
  rw [addUsage, if_pos h]

theorem addUsage_cons_ne (hp : Nat) (us : List ConflictUser)
    (tl : List (Nat × List ConflictUser)) (p : Nat) (u : ConflictUser) (h : ¬ hp = p) :
    addUsage ((hp, us) :: tl) p u = (hp, us) :: addUsage tl p u := by
  rw [addUsage, if_neg h]

theorem lenAt_addUsage (acc : List (Nat × List ConflictUser)) (p : Nat) (u : ConflictUser)
    (q : Nat) : lenAt (addUsage acc p u) q = lenAt acc q + (if q = p then 1 else 0) := by
  induction acc with
  | nil =>
    show lenAt [(p, [u])] q = lenAt [] q + (if q = p then 1 else 0)
    by_cases hq : q = p
    · rw [lenAt_cons_eq _ _ _ _ hq.symm, lenAt_nil, if_pos hq]
      rfl
    · rw [lenAt_cons_ne _ _ _ _ (fun hh => hq hh.symm), lenAt_nil, if_neg hq]
  | cons hd tl ih =>
    obtain ⟨hp, us⟩ := hd
    by_cases h1 : hp = p
    · rw [addUsage_cons_eq _ _ _ _ _ h1]
      by_cases hq : q = hp
      · rw [lenAt_cons_eq _ _ _ _ hq.symm, lenAt_cons_eq _ _ _ _ hq.symm,
          if_pos (hq.trans h1), List.length_append]
        rfl
      · rw [lenAt_cons_ne _ _ _ _ (fun hh => hq hh.symm),
          lenAt_cons_ne _ _ _ _ (fun hh => hq hh.symm),
          if_neg (fun hh => hq (hh.trans h1.symm))]
        rfl
    · rw [addUsage_cons_ne _ _ _ _ _ h1]
      by_cases hq : q = hp
      · rw [lenAt_cons_eq _ _ _ _ hq.symm, lenAt_cons_eq _ _ _ _ hq.symm,
          if_neg (fun hh => h1 (hq.symm.trans hh))]
        rfl
      · rw [lenAt_cons_ne _ _ _ _ (fun hh => hq hh.symm),
          lenAt_cons_ne _ _ _ _ (fun hh => hq hh.symm), ih]

theorem lenAt_foldl (entries : List (Nat × ConflictUser)) (q : Nat) :
    ∀ acc, lenAt (entries.foldl (fun a e => addUsage a e.1 e.2) acc) q
      = lenAt acc q + entries.countP (fun e => e.1 == q) := by
  induction entries with
  | nil => intro acc; simp
  | cons e tl ih =>
    intro acc
    rw [List.foldl_cons, ih (addUsage acc e.1 e.2), lenAt_addUsage, List.countP_cons]
    by_cases hq : q = e.1
    · have hb : (e.1 == q) = true := beq_iff_eq.mpr hq.symm
      rw [if_pos hq, hb, if_pos (rfl : (true : Bool) = true)]
      omega
    · have hb : (e.1 == q) = false := beq_eq_false_iff_ne.mpr (fun hh => hq hh.symm)
      rw [if_neg hq, hb, if_neg (by simp : ¬ ((false : Bool) = true))]
      omega

theorem mem_keys_addUsage (acc : List (Nat × List ConflictUser)) (p : Nat)
    (u : ConflictUser) (q : Nat) :
    q ∈ (addUsage acc p u).map Prod.fst ↔ q = p ∨ q ∈ acc.map Prod.fst := by
  induction acc with
  | nil =>
    show q ∈ [(p, [u])].map Prod.fst ↔ _
    simp
  | cons hd tl ih =>
    obtain ⟨hp, us⟩ := hd
    by_cases h1 : hp = p
    · rw [addUsage_cons_eq _ _ _ _ _ h1]
      subst h1
      simp only [List.map_cons, List.mem_cons]
      tauto
    · rw [addUsage_cons_ne _ _ _ _ _ h1]
      simp only [List.map_cons, List.mem_cons, ih]
      tauto

theorem nodup_keys_addUsage (acc : List (Nat × List ConflictUser)) (p : Nat)
    (u : ConflictUser) (h : (acc.map Prod.fst).Nodup) :
    ((addUsage acc p u).map Prod.fst).Nodup := by
  induction acc with
  | nil =>
    show ([(p, [u])].map Prod.fst).Nodup
    simp
  | cons hd tl ih =>
    obtain ⟨hp, us⟩ := hd
    rw [List.map_cons, List.nodup_cons] at h
    by_cases h1 : hp = p
    · rw [addUsage_cons_eq _ _ _ _ _ h1]
      rw [List.map_cons, List.nodup_cons]
      exact h
    · rw [addUsage_cons_ne _ _ _ _ _ h1]
      rw [List.map_cons, List.nodup_cons]
      refine ⟨?_, ih h.2⟩
      rw [mem_keys_addUsage]
      rintro (hh | hh)
      · exact h1 hh
      · exact h.1 hh

theorem nodup_keys_foldl (entries : List (Nat × ConflictUser)) :
    ∀ acc, (acc.map Prod.fst).Nodup →
      (((entries.foldl (fun a e => addUsage a e.1 e.2) acc)).map Prod.fst).Nodup := by
  induction entries with
  | nil => intro acc h; simpa using h
  | cons e tl ih =>
    intro acc h
    rw [List.foldl_cons]
    exact ih _ (nodup_keys_addUsage acc e.1 e.2 h)

theorem length_eq_lenAt (acc : List (Nat × List ConflictUser))
    (h : (acc.map Prod.fst).Nodup) (g : Nat × List ConflictUser) (hg : g ∈ acc) :
    g.2.length = lenAt acc g.1 := by
  induction acc with
  | nil => cases hg
  | cons hd tl ih =>
    rw [List.map_cons, List.nodup_cons] at h
    rcases List.mem_cons.mp hg with hh | hh
    · subst hh
      rw [lenAt_cons_eq _ _ _ _ rfl]
    · have hne : ¬ hd.1 = g.1 := by
        intro he
        exact h.1 (he ▸ List.mem_map_of_mem Prod.fst hh)
      obtain ⟨k1, v1⟩ := hd
      rw [lenAt_cons_ne _ _ _ _ hne]
      exact ih h.2 hh

theorem exists_group_of_lenAt_pos (acc : List (Nat × List ConflictUser)) (q : Nat)
    (h : 0 < lenAt acc q) :
    ∃ g ∈ acc, g.1 = q ∧ g.2.length = lenAt acc q := by
  unfold lenAt at h ⊢
  cases hf : acc.find? (fun g => g.1 == q) with
  | none => rw [hf] at h; cases h
  | some g =>
    refine ⟨g, List.mem_of_find?_eq_some hf, ?_, rfl⟩
    have := List.find?_some hf
    simpa using this

/-- C2: under the spec's own data-model invariant (all recorded port values
in [1, 65535]), `check_conflicts` reports a port as conflicting iff at least
two (project, service-key, service) entries of the flattened project list are
enabled, carry that port as their assigned port, and record either no
original detected port or one equal to their current assigned port. A
service whose assigned port differs from its recorded original detected port
never contributes to any conflict group. -/
theorem check_conflicts_iff (projects : List ProjectRec) (q : Nat)
    (hwf : WFProjects projects) :
    (∃ g ∈ check_conflicts projects, g.1 = q) ↔
      2 ≤ ((projects.flatMap (fun pr => pr.services.map (fun kv => (pr, kv)))).countP
            (fun x => decide (countsForPort x.2 q))) := by
  unfold check_conflicts
  have hlen : lenAt ((projects.flatMap (fun pr => pr.services.filterMap (entryOf pr))).foldl
      (fun acc e => addUsage acc e.1 e.2) []) q
      = ((projects.flatMap (fun pr => pr.services.map (fun kv => (pr, kv)))).countP
          (fun x => decide (countsForPort x.2 q))) := by
    rw [lenAt_foldl, ← entries_count_eq projects hwf q, lenAt_nil, Nat.zero_add]
  have hnodup := nodup_keys_foldl
    (projects.flatMap (fun pr => pr.services.filterMap (entryOf pr))) [] (by simp)
  constructor
  · rintro ⟨g, hg, rfl⟩
    rcases List.mem_filter.mp hg with ⟨hmem, hgt⟩
    have hlg := length_eq_lenAt _ hnodup g hmem
    have hgl : 1 < g.2.length := by simpa using hgt
    rw [hlg, hlen] at hgl
    omega
  · intro h2
    have hpos : 0 < lenAt ((projects.flatMap
        (fun pr => pr.services.filterMap (entryOf pr))).foldl
        (fun acc e => addUsage acc e.1 e.2) []) q := by
      rw [hlen]
      omega
    obtain ⟨g, hmem, hkey, hglen⟩ := exists_group_of_lenAt_pos _ q hpos
    rw [hlen] at hglen
    refine ⟨g, List.mem_filter.mpr ⟨hmem, by simp only [decide_eq_true_eq]; omega⟩, hkey⟩

/-- C2 witness: two enabled, unmodified services from different projects both
assigned port 3000 — one reported conflict at 3000, and indeed two counted
entries. -/
theorem check_conflicts_iff_witness :
    (∃ g ∈ check_conflicts
        [⟨"A", "projA", [("frontend",
            ⟨true, "web", "npm run dev", none, some ⟨3000, none, none, "", "", none, 0⟩,
              none, none⟩)]⟩,
         ⟨"B", "projB", [("frontend",
            ⟨true, "web", "npm run dev", none, some ⟨3000, none, none, "", "", none, 0⟩,
              none, none⟩)]⟩], g.1 = 3000) ↔
      2 ≤ (([⟨"A", "projA", [("frontend",
            (⟨true, "web", "npm run dev", none, some ⟨3000, none, none, "", "", none, 0⟩,
              none, none⟩ : ServiceRec))]⟩,
         (⟨"B", "projB", [("frontend",
            ⟨true, "web", "npm run dev", none, some ⟨3000, none, none, "", "", none, 0⟩,
              none, none⟩)]⟩ : ProjectRec)] : List ProjectRec).flatMap
          (fun pr => pr.services.map (fun kv => (pr, kv)))).countP
            (fun x => decide (countsForPort x.2 3000)) :=
  check_conflicts_iff _ 3000 (by decide)

end DevManager
